import Mathlib

/-!
Verification of the join-channel selection core of `lorawan-device`
(`src/lorawan-device/src/region/fixed_channel_plans/join_channels.rs`).

The file shallowly embeds the two components of the core:
`JoinChannels` (the bias-aware dispatcher) and `AvailableChannels`
(the non-repeating random-walk channel pool).  Machine integers are
modelled as `Nat`; the `u32` draw of the entropy source is reduced
modulo `2 ^ 32` at the draw site.  The unbounded fallback loop of
`get_next_channel_inner` is modelled with explicit fuel, returning
`none` when the fuel runs out; a run of the loop that terminates in
the source terminates in the model with any sufficiently large fuel.
-/

namespace JoinChannelsModel

/-- Modelled from the spec: the entropy source is a capability producing one
uniformly distributed 32-bit value on demand (`RngCore::next_u32`).  We model
an entropy stream as an infinite sequence of naturals together with a cursor;
each draw reduces the current element modulo `2 ^ 32` and advances the cursor. -/
structure RngState where
  seq : Nat → Nat
  pos : Nat

/-- One call to `rng.next_u32()`: the drawn 32-bit value and the advanced stream. -/
def next_u32 (r : RngState) : Nat × RngState :=
  (r.seq r.pos % 2 ^ 32, ⟨r.seq, r.pos + 1⟩)

/-- Modelled from the spec: `ChannelMask<9>` from the `lorawan` crate (the type
is not under `src/`): a 72-bit dense bit-set, one bit per channel, `true` =
still selectable.  We model it as a predicate on channel indices; only
test-bit, clear-bit and the all-zero check are used by the core. -/
def ChannelMask : Type := Nat → Bool

/-- Modelled from the spec: `ChannelMask::default()` is fully set
(all 72 channels selectable). -/
def ChannelMask.default : ChannelMask := fun _ => true

/-- Modelled from the spec: `ChannelMask::set_channel(channel, b)`. -/
def set_channel (m : ChannelMask) (channel : Nat) (b : Bool) : ChannelMask :=
  fun i => if i = channel then b else m i

/-- Modelled from the spec: `ChannelMask::is_enabled(channel)` (the `unwrap`
in the source never fails because every index reaching it is below 72). -/
def is_enabled (m : ChannelMask) (channel : Nat) : Bool :=
  m channel

/-- `AvailableChannels::is_exhausted`: the source checks that each of the 9
underlying bytes is zero, i.e. that all 72 bits are cleared. -/
def is_exhausted (m : ChannelMask) : Bool :=
  (List.range 72).all fun i => !(m i)

/-- `struct AvailableChannels { data, previous }`. -/
structure AvailableChannels where
  data : ChannelMask
  previous : Option Nat

/-- `AvailableChannels::default()`: full mask, no previous channel. -/
def AvailableChannels.default : AvailableChannels :=
  ⟨ChannelMask.default, none⟩

/-- `AvailableChannels::reset`. -/
def AvailableChannels.reset (_s : AvailableChannels) : AvailableChannels :=
  ⟨ChannelMask.default, none⟩

/-- One update of the fallback loop's cached entropy word: refill from the rng
once 10 extractions (30 bits) have been used, then shift out 3 bits
(`entropy >>= 3; entropy_used += 1` with the `entropy_used == 10` refill). -/
def fbStep : Nat × Nat × RngState → Nat × Nat × RngState
  | (entropy, entropy_used, rng) =>
    if entropy_used = 10 then
      ((next_u32 rng).1 / 8, 1, (next_u32 rng).2)
    else
      (entropy / 8, entropy_used + 1, rng)

/-- The `loop` in `AvailableChannels::get_next_channel_inner`: test
`channel = (entropy & 0b111) + bank * 8` for availability, otherwise advance
the cached entropy word with `fbStep` and retry.  The source loop is
unbounded; `fuel` bounds the number of iterations in the model and `none`
reports fuel exhaustion. -/
def fallbackGo (m : ChannelMask) (bank : Nat) :
    Nat → Nat × Nat × RngState → Option (Nat × RngState)
  | 0, _ => none
  | fuel + 1, (entropy, entropy_used, rng) =>
    if is_enabled m ((entropy &&& 7) + bank * 8) then
      some ((entropy &&& 7) + bank * 8, rng)
    else
      fallbackGo m bank fuel (fbStep (entropy, entropy_used, rng))

/-- `AvailableChannels::get_next_channel_inner`.  In the `previous` case the
candidate is `next = (previous + 8) % 72` and the fallback searches the bank
`next / 8`, seeding its entropy cache with one fresh draw
(`entropy_used = 1`). -/
def get_next_channel_inner (fuel : Nat) (s : AvailableChannels) (rng : RngState) :
    Option (Nat × RngState) :=
  match s.previous with
  | some previous =>
    if is_enabled s.data ((previous + 8) % 72) then
      some ((previous + 8) % 72, rng)
    else
      fallbackGo s.data ((previous + 8) % 72 / 8) fuel
        ((next_u32 rng).1, 1, (next_u32 rng).2)
  | none =>
    some ((next_u32 rng).1 &&& 63, (next_u32 rng).2)

/-- The exhaustion check opening `AvailableChannels::get_next`: reset the pool
when every channel has been used. -/
def postExhaust (s : AvailableChannels) : AvailableChannels :=
  if is_exhausted s.data then s.reset else s

/-- `AvailableChannels::get_next`. -/
def get_next (fuel : Nat) (s : AvailableChannels) (rng : RngState) :
    Option (Nat × AvailableChannels × RngState) :=
  match get_next_channel_inner fuel (postExhaust s) rng with
  | none => none
  | some (channel, rng') =>
    some (channel,
      ⟨set_channel (postExhaust s).data channel false, some channel⟩, rng')

/-- Modelled from the spec: the `Subband` identifier (values 1–8), defined in
`fixed_channel_plans/mod.rs`, which is not under `src/`.  Construction from a
raw number is range-validated (`Subband.fromNat`). -/
inductive Subband where
  | sb1 | sb2 | sb3 | sb4 | sb5 | sb6 | sb7 | sb8
deriving DecidableEq

/-- The numeric value of a subband (`sb as usize` in the source), in 1–8. -/
def Subband.val : Subband → Nat
  | .sb1 => 1
  | .sb2 => 2
  | .sb3 => 3
  | .sb4 => 4
  | .sb5 => 5
  | .sb6 => 6
  | .sb7 => 7
  | .sb8 => 8

/-- Modelled from the spec: range-validated construction of a `Subband` from a
raw number — values outside 1–8 are rejected at configuration time. -/
def Subband.fromNat : Nat → Option Subband
  | 1 => some .sb1
  | 2 => some .sb2
  | 3 => some .sb3
  | 4 => some .sb4
  | 5 => some .sb5
  | 6 => some .sb6
  | 7 => some .sb7
  | 8 => some .sb8
  | _ => none

/-- `struct JoinChannels`. -/
structure JoinChannels where
  max_retries : Nat
  num_retries : Nat
  preferred_subband : Option Subband
  available_channels : AvailableChannels

/-- `JoinChannels::default()`. -/
def JoinChannels.default : JoinChannels :=
  ⟨0, 0, none, AvailableChannels.default⟩

/-- `JoinChannels::set_join_bias`. -/
def set_join_bias (jc : JoinChannels) (subband : Subband) (max_retries : Nat) :
    JoinChannels :=
  { jc with preferred_subband := some subband, max_retries := max_retries }

/-- `JoinChannels::clear_join_bias`. -/
def clear_join_bias (jc : JoinChannels) : JoinChannels :=
  { jc with preferred_subband := none, max_retries := 0 }

/-- `JoinChannels::reset`: called after a join accept; resets the retry counter
and the channel pool, keeping the bias configuration. -/
def JoinChannels.reset (jc : JoinChannels) : JoinChannels :=
  { jc with num_retries := 0, available_channels := AvailableChannels.default }

/-- `JoinChannels::get_next_channel`. -/
def get_next_channel (fuel : Nat) (jc : JoinChannels) (rng : RngState) :
    Option (Nat × JoinChannels × RngState) :=
  match jc.preferred_subband, compare jc.num_retries jc.max_retries with
  | some sb, Ordering.lt =>
    some ((next_u32 rng).1 % 8 + (sb.val - 1) * 8,
      { jc with
        num_retries := jc.num_retries + 1,
        available_channels :=
          if jc.num_retries + 1 = jc.max_retries then
            AvailableChannels.mk
              (set_channel jc.available_channels.data
                ((next_u32 rng).1 % 8 + (sb.val - 1) * 8) false)
              (some ((next_u32 rng).1 % 8 + (sb.val - 1) * 8))
          else
            jc.available_channels },
      (next_u32 rng).2)
  | _, _ =>
    match get_next fuel jc.available_channels rng with
    | none => none
    | some (channel, s', rng') =>
      some (channel, { jc with available_channels := s' }, rng')

/-- Modelled from the spec: the region-level `set_join_bias*` configuration
path, taking a raw subband number; the number is range-validated by the
`Subband` construction (which lives outside `src/`) before the bias is
installed, and an out-of-range number signals an invalid configuration
(`none`). -/
def set_join_bias_checked (jc : JoinChannels) (n : Nat) (max_retries : Nat) :
    Option JoinChannels :=
  (Subband.fromNat n).map fun sb => set_join_bias jc sb max_retries

/-- Run `n` consecutive `AvailableChannels::get_next` calls, collecting the
returned channels; the `Bool` records whether any call found the mask
exhausted (and hence performed an internal reset). -/
def run_get_next (fuel : Nat) :
    Nat → AvailableChannels → RngState →
    Option (List Nat × Bool × AvailableChannels × RngState)
  | 0, s, r => some ([], false, s, r)
  | n + 1, s, r =>
    match get_next fuel s r with
    | none => none
    | some (c, s', r') =>
      match run_get_next fuel n s' r' with
      | none => none
      | some (cs, flag, s'', r'') =>
        some (c :: cs, flag || is_exhausted s.data, s'', r'')

/-- The all-zeros entropy stream (a legitimate, if adversarial, entropy
source: every draw returns 0). -/
def zeroRng : RngState := ⟨fun _ => 0, 0⟩

/-- Termination of a pool selection call: some fuel suffices. -/
def poolTerminates (s : AvailableChannels) (rng : RngState) : Prop :=
  ∃ fuel c s' rng', get_next fuel s rng = some (c, s', rng')

theorem is_enabled_set_channel (m : ChannelMask) (x c : Nat) (b : Bool) :
    is_enabled (set_channel m x b) c = if c = x then b else is_enabled m c := rfl

theorem not_exhausted_of_enabled {m : ChannelMask} {c : Nat} (hc : c < 72)
    (h : is_enabled m c = true) : is_exhausted m = false := by
  cases hex : is_exhausted m with
  | false => rfl
  | true =>
    exfalso
    have hall := List.all_eq_true.mp hex c (List.mem_range.mpr hc)
    simp only [is_enabled] at h
    rw [h] at hall
    simp at hall

theorem Subband.val_ge_one (sb : Subband) : 1 ≤ sb.val := by
  cases sb <;> decide

theorem Subband.val_le_eight (sb : Subband) : sb.val ≤ 8 := by
  cases sb <;> decide

/-- Any channel returned by the fallback search is an available channel of the
searched bank. -/
theorem fallbackGo_some (m : ChannelMask) (bank : Nat) :
    ∀ fuel e u r c r', fallbackGo m bank fuel (e, u, r) = some (c, r') →
      is_enabled m c = true ∧ bank * 8 ≤ c ∧ c < bank * 8 + 8 := by
  intro fuel
  induction fuel with
  | zero =>
    intro e u r c r' h
    simp [fallbackGo] at h
  | succ n ih =>
    intro e u r c r' h
    rw [fallbackGo] at h
    by_cases hen : is_enabled m ((e &&& 7) + bank * 8) = true
    · rw [if_pos hen] at h
      have hc : c = (e &&& 7) + bank * 8 := by
        cases h
        rfl
      subst hc
      refine ⟨hen, Nat.le_add_left _ _, ?_⟩
      have h7 : e &&& 7 ≤ 7 := Nat.and_le_right
      omega
    · rw [if_neg hen] at h
      rcases hfb : fbStep (e, u, r) with ⟨e', u', r''⟩
      rw [hfb] at h
      exact ih e' u' r'' c r' h

/-- Any channel returned by `get_next_channel_inner` is below 72. -/
theorem inner_some_lt {fuel : Nat} {s : AvailableChannels} {rng : RngState}
    {c : Nat} {rng' : RngState}
    (h : get_next_channel_inner fuel s rng = some (c, rng')) : c < 72 := by
  rcases hp : s.previous with _ | p
  · simp only [get_next_channel_inner, hp] at h
    have hc : c = (next_u32 rng).1 &&& 63 := by
      cases h
      rfl
    have h63 : (next_u32 rng).1 &&& 63 ≤ 63 := Nat.and_le_right
    omega
  · simp only [get_next_channel_inner, hp] at h
    by_cases hen : is_enabled s.data ((p + 8) % 72) = true
    · rw [if_pos hen] at h
      have hc : c = (p + 8) % 72 := by
        cases h
        rfl
      subst hc
      exact Nat.mod_lt _ (by decide)
    · rw [if_neg hen] at h
      have hb := (fallbackGo_some s.data ((p + 8) % 72 / 8) fuel
        (next_u32 rng).1 1 (next_u32 rng).2 c rng' h).2.2
      have hlt : (p + 8) % 72 < 72 := Nat.mod_lt _ (by decide)
      have hdiv : (p + 8) % 72 / 8 ≤ 8 := by omega
      omega

/-- When `previous` is set, `get_next_channel_inner` only returns channels
that are still enabled in the mask. -/
theorem inner_some_enabled {fuel : Nat} {s : AvailableChannels} {rng : RngState}
    {c : Nat} {rng' : RngState} {p : Nat} (hp : s.previous = some p)
    (h : get_next_channel_inner fuel s rng = some (c, rng')) :
    is_enabled s.data c = true := by
  simp only [get_next_channel_inner, hp] at h
  by_cases hen : is_enabled s.data ((p + 8) % 72) = true
  · rw [if_pos hen] at h
    have hc : c = (p + 8) % 72 := by
      cases h
      rfl
    subst hc
    exact hen
  · rw [if_neg hen] at h
    exact (fallbackGo_some s.data ((p + 8) % 72 / 8) fuel
      (next_u32 rng).1 1 (next_u32 rng).2 c rng' h).1

/-- Any channel returned by `AvailableChannels::get_next` is below 72. -/
theorem get_next_some_lt {fuel : Nat} {s : AvailableChannels} {rng : RngState}
    {c : Nat} {s' : AvailableChannels} {rng' : RngState}
    (h : get_next fuel s rng = some (c, s', rng')) : c < 72 := by
  rcases hi : get_next_channel_inner fuel (postExhaust s) rng with _ | ⟨c0, r0⟩
  · simp only [get_next, hi] at h
    cases h
  · simp only [get_next, hi] at h
    have hc : c = c0 := by
      cases h
      rfl
    subst hc
    exact inner_some_lt hi

/-- C1: every channel index returned by `get_next_channel` — for any state of
the dispatcher (hence after any sequence of `set_join_bias`,
`clear_join_bias`, `reset` and `get_next_channel` calls), any entropy stream
and any fuel — lies in [0, 71]. -/
theorem claim_C1_range (fuel : Nat) (jc : JoinChannels) (rng : RngState) :
    match get_next_channel fuel jc rng with
    | some (c, _, _) => c ≤ 71
    | none => True := by
  rcases h : get_next_channel fuel jc rng with _ | ⟨c, jc', rng'⟩
  · trivial
  · show c ≤ 71
    rcases hp : jc.preferred_subband with _ | sb
    · simp only [get_next_channel, hp] at h
      rcases hg : get_next fuel jc.available_channels rng with _ | ⟨c0, s0, r0⟩
      · rw [hg] at h
        cases h
      · rw [hg] at h
        have hc : c = c0 := by
          cases h
          rfl
        subst hc
        have := get_next_some_lt hg
        omega
    · cases hcmp : compare jc.num_retries jc.max_retries
      all_goals simp only [get_next_channel, hp, hcmp] at h
      case lt =>
        have hc : c = (next_u32 rng).1 % 8 + (sb.val - 1) * 8 := by
          cases h
          rfl
        subst hc
        have h8 : (next_u32 rng).1 % 8 < 8 := Nat.mod_lt _ (by decide)
        have hsb := Subband.val_le_eight sb
        omega
      all_goals
        rcases hg : get_next fuel jc.available_channels rng with _ | ⟨c0, s0, r0⟩
      · rw [hg] at h
        cases h
      · rw [hg] at h
        have hc : c = c0 := by
          cases h
          rfl
        subst hc
        have := get_next_some_lt hg
        omega
      · rw [hg] at h
        cases h
      · rw [hg] at h
        have hc : c = c0 := by
          cases h
          rfl
        subst hc
        have := get_next_some_lt hg
        omega

/-- When `previous = c` and the candidate `(c + 8) % 72` is still available,
`get_next` accepts it directly without drawing entropy. -/
theorem get_next_of_prev_enabled (fuel : Nat) (s : AvailableChannels)
    (rng : RngState) (c : Nat) (hprev : s.previous = some c)
    (hbit : is_enabled s.data ((c + 8) % 72) = true) :
    get_next fuel s rng = some ((c + 8) % 72,
      AvailableChannels.mk (set_channel s.data ((c + 8) % 72) false)
        (some ((c + 8) % 72)), rng) := by
  have hlt : (c + 8) % 72 < 72 := Nat.mod_lt _ (by decide)
  have hnex : is_exhausted s.data = false := not_exhausted_of_enabled hlt hbit
  have hpe : postExhaust s = s := by
    simp [postExhaust, hnex]
  have hi : get_next_channel_inner fuel s rng = some ((c + 8) % 72, rng) := by
    simp only [get_next_channel_inner, hprev, if_pos hbit]
  simp only [get_next, hpe, hi]

/-- C2: whenever `previous` is set to `c` and the mask bit of
`(c + 8) % 72` is still set, the pool's next-selection returns exactly
`(c + 8) % 72` (and consumes no entropy: the stream is returned unchanged). -/
theorem claim_C2_paired_step (s : AvailableChannels) (rng : RngState)
    (fuel c : Nat) (hprev : s.previous = some c)
    (hbit : is_enabled s.data ((c + 8) % 72) = true) :
    ∃ s', get_next fuel s rng = some ((c + 8) % 72, s', rng) :=
  ⟨AvailableChannels.mk (set_channel s.data ((c + 8) % 72) false)
    (some ((c + 8) % 72)), get_next_of_prev_enabled fuel s rng c hprev hbit⟩

theorem claim_C2_witness :
    (AvailableChannels.mk ChannelMask.default (some 0)).previous = some 0 ∧
    is_enabled (AvailableChannels.mk ChannelMask.default (some 0)).data
      ((0 + 8) % 72) = true ∧
    ∃ s', get_next 0 (AvailableChannels.mk ChannelMask.default (some 0)) zeroRng =
      some ((0 + 8) % 72, s', zeroRng) :=
  ⟨rfl, rfl,
    claim_C2_paired_step (AvailableChannels.mk ChannelMask.default (some 0))
      zeroRng 0 0 rfl rfl⟩

/-- C8: with no bias configured and `previous` unset, the first channel
returned is the random 32-bit draw masked to its low 6 bits, hence in
[0, 63]. -/
theorem claim_C8_no_bias_first_pick (fuel : Nat) (jc : JoinChannels)
    (rng : RngState) (hp : jc.preferred_subband = none)
    (hprev : jc.available_channels.previous = none) :
    ∃ jc', get_next_channel fuel jc rng =
      some ((next_u32 rng).1 &&& 63, jc', (next_u32 rng).2) ∧
      (next_u32 rng).1 &&& 63 ≤ 63 := by
  have hpe : (postExhaust jc.available_channels).previous = none := by
    unfold postExhaust
    split
    · rfl
    · exact hprev
  have hi : get_next_channel_inner fuel (postExhaust jc.available_channels) rng =
      some ((next_u32 rng).1 &&& 63, (next_u32 rng).2) := by
    simp only [get_next_channel_inner, hpe]
  refine ⟨{ jc with available_channels := AvailableChannels.mk (set_channel (postExhaust jc.available_channels).data ((next_u32 rng).1 &&& 63) false) (some ((next_u32 rng).1 &&& 63)) }, ?_, Nat.and_le_right⟩
  simp only [get_next_channel, hp, get_next, hi]

theorem claim_C8_witness :
    JoinChannels.default.preferred_subband = none ∧
    JoinChannels.default.available_channels.previous = none ∧
    ∃ jc', get_next_channel 0 JoinChannels.default zeroRng =
      some ((next_u32 zeroRng).1 &&& 63, jc', (next_u32 zeroRng).2) ∧
      (next_u32 zeroRng).1 &&& 63 ≤ 63 :=
  ⟨rfl, rfl, claim_C8_no_bias_first_pick 0 JoinChannels.default zeroRng rfl rfl⟩

/-- C6: the mask is all-zero exactly when all 72 channel bits have been
cleared (each bit is cleared precisely when its channel was selected since
the last reset), and a `get_next` call on an exhausted pool behaves exactly
like a call on a freshly reset pool and returns a valid channel (no error). -/
theorem claim_C6_exhaustion (m : ChannelMask) (fuel : Nat)
    (s : AvailableChannels) (rng : RngState) :
    (is_exhausted m = true ↔ ∀ c, c < 72 → is_enabled m c = false) ∧
    (is_exhausted s.data = true →
      get_next fuel s rng = get_next fuel AvailableChannels.default rng ∧
      ∃ c s' rng', get_next fuel s rng = some (c, s', rng') ∧ c ≤ 71) := by
  constructor
  · constructor
    · intro h c hc
      have := List.all_eq_true.mp h c (List.mem_range.mpr hc)
      simp only [is_enabled]
      simpa using this
    · intro h
      refine List.all_eq_true.mpr ?_
      intro i hi
      have := h i (List.mem_range.mp hi)
      simp only [is_enabled] at this
      simp [this]
  · intro hex
    have hpe : postExhaust s = AvailableChannels.default := by
      simp [postExhaust, hex]
      rfl
    have hpe2 : postExhaust AvailableChannels.default = AvailableChannels.default := by
      simp [postExhaust, show is_exhausted AvailableChannels.default.data = false
        from by decide]
    have heq : get_next fuel s rng = get_next fuel AvailableChannels.default rng := by
      unfold get_next
      rw [hpe, hpe2]
    refine ⟨heq, ?_⟩
    have hprev : (postExhaust s).previous = none := by
      rw [hpe]
      rfl
    have hi : get_next_channel_inner fuel (postExhaust s) rng =
        some ((next_u32 rng).1 &&& 63, (next_u32 rng).2) := by
      simp only [get_next_channel_inner, hprev]
    refine ⟨(next_u32 rng).1 &&& 63,
      AvailableChannels.mk
        (set_channel (postExhaust s).data ((next_u32 rng).1 &&& 63) false)
        (some ((next_u32 rng).1 &&& 63)),
      (next_u32 rng).2, ?_, ?_⟩
    · simp only [get_next, hi]
    · have : (next_u32 rng).1 &&& 63 ≤ 63 := Nat.and_le_right
      omega

theorem claim_C6_witness :
    is_exhausted (AvailableChannels.mk (fun _ => false) none).data = true ∧
    (get_next 0 (AvailableChannels.mk (fun _ => false) none) zeroRng =
      get_next 0 AvailableChannels.default zeroRng ∧
    ∃ c s' rng', get_next 0 (AvailableChannels.mk (fun _ => false) none) zeroRng =
      some (c, s', rng') ∧ c ≤ 71) :=
  ⟨by decide,
    (claim_C6_exhaustion (fun _ => false) 0
      (AvailableChannels.mk (fun _ => false) none) zeroRng).2 (by decide)⟩

/-- C4: with bias set to subband `sb` and `max_retries = 1` on a fresh
instance, the first channel lies in the subband's standard bank
`[(val - 1) * 8, (val - 1) * 8 + 7]` and the second channel is the first
plus 8. -/
theorem claim_C4_bias_first_two (sb : Subband) (rng : RngState) (fuel : Nat) :
    ∃ c1 jc1 rng1 c2 jc2 rng2,
      get_next_channel fuel (set_join_bias JoinChannels.default sb 1) rng =
        some (c1, jc1, rng1) ∧
      get_next_channel fuel jc1 rng1 = some (c2, jc2, rng2) ∧
      (sb.val - 1) * 8 ≤ c1 ∧ c1 ≤ (sb.val - 1) * 8 + 7 ∧ c2 = c1 + 8 := by
  have hm8 : (next_u32 rng).1 % 8 < 8 := Nat.mod_lt _ (by decide)
  have hsb1 := Subband.val_ge_one sb
  have hsb8 := Subband.val_le_eight sb
  set c1 := (next_u32 rng).1 % 8 + (sb.val - 1) * 8 with hc1def
  have hc1le : c1 ≤ 63 := by
    rw [hc1def]
    omega
  have h1 : get_next_channel fuel (set_join_bias JoinChannels.default sb 1) rng =
      some (c1, JoinChannels.mk 1 1 (some sb)
        (AvailableChannels.mk (set_channel ChannelMask.default c1 false)
          (some c1)), (next_u32 rng).2) := rfl
  have hbit : is_enabled (set_channel ChannelMask.default c1 false)
      ((c1 + 8) % 72) = true := by
    rw [Nat.mod_eq_of_lt (by omega : c1 + 8 < 72), is_enabled_set_channel,
      if_neg (by omega : ¬ c1 + 8 = c1)]
    rfl
  have h2pool := get_next_of_prev_enabled fuel
    (AvailableChannels.mk (set_channel ChannelMask.default c1 false) (some c1))
    (next_u32 rng).2 c1 rfl hbit
  rw [Nat.mod_eq_of_lt (by omega : c1 + 8 < 72)] at h2pool
  have h2 : get_next_channel fuel (JoinChannels.mk 1 1 (some sb)
      (AvailableChannels.mk (set_channel ChannelMask.default c1 false)
        (some c1))) (next_u32 rng).2 =
      some (c1 + 8, JoinChannels.mk 1 1 (some sb)
        (AvailableChannels.mk
          (set_channel (set_channel ChannelMask.default c1 false) (c1 + 8) false)
          (some (c1 + 8))), (next_u32 rng).2) := by
    show (match get_next fuel
        (AvailableChannels.mk (set_channel ChannelMask.default c1 false)
          (some c1)) (next_u32 rng).2 with
      | none => none
      | some (channel, s', rng') =>
        some (channel, JoinChannels.mk 1 1 (some sb) s', rng')) = _
    rw [h2pool]
  refine ⟨c1, _, _, c1 + 8, _, _, h1, h2, ?_, ?_, rfl⟩
  · rw [hc1def]
    omega
  · rw [hc1def]
    omega

/-- C10: `set_join_bias` overwrites the subband and the retry budget but
leaves `num_retries` unchanged; when the pre-existing `num_retries` already
meets or exceeds the new budget, `get_next_channel` delegates straight to the
channel pool and leaves the counter and configuration untouched (so no biased
pick ever happens until a reset zeroes the counter). -/
theorem claim_C10_stale_counter (jc : JoinChannels) (sb : Subband)
    (m fuel : Nat) (rng : RngState) (h : m ≤ jc.num_retries) :
    (set_join_bias jc sb m).num_retries = jc.num_retries ∧
    (set_join_bias jc sb m).preferred_subband = some sb ∧
    (set_join_bias jc sb m).max_retries = m ∧
    get_next_channel fuel (set_join_bias jc sb m) rng =
      (match get_next fuel jc.available_channels rng with
       | none => none
       | some (channel, s', rng') =>
         some (channel,
           { set_join_bias jc sb m with available_channels := s' }, rng')) ∧
    (∀ c jc' rng',
      get_next_channel fuel (set_join_bias jc sb m) rng = some (c, jc', rng') →
      jc'.num_retries = jc.num_retries ∧ jc'.max_retries = m ∧
      jc'.preferred_subband = some sb) := by
  have hdeleg : get_next_channel fuel (set_join_bias jc sb m) rng =
      (match get_next fuel jc.available_channels rng with
       | none => none
       | some (channel, s', rng') =>
         some (channel,
           { set_join_bias jc sb m with available_channels := s' }, rng')) := by
    cases hcmp : compare jc.num_retries m with
    | lt => exact absurd (Nat.compare_eq_lt.mp hcmp) (by omega)
    | eq => simp only [get_next_channel, set_join_bias, hcmp]
    | gt => simp only [get_next_channel, set_join_bias, hcmp]
  refine ⟨rfl, rfl, rfl, hdeleg, ?_⟩
  intro c jc' rng' hcall
  rw [hdeleg] at hcall
  rcases hg : get_next fuel jc.available_channels rng with _ | ⟨c0, s0, r0⟩
  · rw [hg] at hcall
    cases hcall
  · rw [hg] at hcall
    have : jc' = { set_join_bias jc sb m with available_channels := s0 } := by
      cases hcall
      rfl
    subst this
    exact ⟨rfl, rfl, rfl⟩

theorem claim_C10_witness :
    1 ≤ (JoinChannels.mk 1 1 none AvailableChannels.default).num_retries ∧
    ((set_join_bias (JoinChannels.mk 1 1 none AvailableChannels.default)
        Subband.sb1 1).num_retries =
      (JoinChannels.mk 1 1 none AvailableChannels.default).num_retries ∧
    (set_join_bias (JoinChannels.mk 1 1 none AvailableChannels.default)
        Subband.sb1 1).preferred_subband = some Subband.sb1 ∧
    (set_join_bias (JoinChannels.mk 1 1 none AvailableChannels.default)
        Subband.sb1 1).max_retries = 1 ∧
    get_next_channel 0 (set_join_bias
        (JoinChannels.mk 1 1 none AvailableChannels.default) Subband.sb1 1)
        zeroRng =
      (match get_next 0
          (JoinChannels.mk 1 1 none AvailableChannels.default).available_channels
          zeroRng with
       | none => none
       | some (channel, s', rng') =>
         some (channel,
           { set_join_bias (JoinChannels.mk 1 1 none AvailableChannels.default)
               Subband.sb1 1 with available_channels := s' }, rng')) ∧
    (∀ c jc' rng',
      get_next_channel 0 (set_join_bias
        (JoinChannels.mk 1 1 none AvailableChannels.default) Subband.sb1 1)
        zeroRng = some (c, jc', rng') →
      jc'.num_retries =
        (JoinChannels.mk 1 1 none AvailableChannels.default).num_retries ∧
      jc'.max_retries = 1 ∧ jc'.preferred_subband = some Subband.sb1)) :=
  ⟨by decide,
    claim_C10_stale_counter (JoinChannels.mk 1 1 none AvailableChannels.default)
      Subband.sb1 1 0 zeroRng (by decide)⟩

/-- A non-exhausted `get_next` call on a mid-walk pool never returns a
channel whose mask bit is already cleared, keeps that bit cleared, and stays
mid-walk. -/
theorem get_next_step_avoids {fuel : Nat} {s : AvailableChannels}
    {rng : RngState} {c : Nat} (hbit : is_enabled s.data c = false)
    (hprev : s.previous.isSome = true) (hnex : is_exhausted s.data = false)
    {c' : Nat} {s' : AvailableChannels} {rng' : RngState}
    (h : get_next fuel s rng = some (c', s', rng')) :
    c' ≠ c ∧ is_enabled s'.data c = false ∧ s'.previous.isSome = true := by
  have hpe : postExhaust s = s := by
    simp [postExhaust, hnex]
  rcases hi : get_next_channel_inner fuel (postExhaust s) rng with _ | ⟨c0, r0⟩
  · simp only [get_next, hi] at h
    cases h
  · simp only [get_next, hi] at h
    simp only [Option.some.injEq, Prod.mk.injEq] at h
    obtain ⟨hc', hs', hr'⟩ := h
    rw [hpe] at hi
    obtain ⟨p, hp⟩ := Option.isSome_iff_exists.mp hprev
    have hen := inner_some_enabled hp hi
    have hne : c0 ≠ c := by
      intro he
      rw [he] at hen
      rw [hen] at hbit
      cases hbit
    rw [← hc', ← hs']
    refine ⟨hne, ?_, rfl⟩
    rw [hpe]
    show is_enabled (set_channel s.data c0 false) c = false
    rw [is_enabled_set_channel]
    by_cases hcc : c = c0
    · rw [if_pos hcc]
    · rw [if_neg hcc]
      exact hbit

/-- Along any reset-free sequence of `get_next` calls, a channel whose mask
bit is cleared in a mid-walk pool is never returned. -/
theorem run_get_next_avoids (fuel c : Nat) :
    ∀ n s rng, is_enabled s.data c = false → s.previous.isSome = true →
      ∀ cs s2 rng2, run_get_next fuel n s rng = some (cs, false, s2, rng2) →
      c ∉ cs := by
  intro n
  induction n with
  | zero =>
    intro s rng hbit hprev cs s2 rng2 h
    simp only [run_get_next, Option.some.injEq, Prod.mk.injEq] at h
    obtain ⟨hcs, _, _, _⟩ := h
    rw [← hcs]
    simp
  | succ k ih =>
    intro s rng hbit hprev cs s2 rng2 h
    rcases hg : get_next fuel s rng with _ | ⟨c0, s0, r0⟩
    · simp only [run_get_next, hg] at h
      cases h
    · simp only [run_get_next, hg] at h
      rcases hr : run_get_next fuel k s0 r0 with _ | ⟨cs1, flag1, s1, r1⟩
      · rw [hr] at h
        cases h
      · rw [hr] at h
        simp only [Option.some.injEq, Prod.mk.injEq] at h
        obtain ⟨hcs, hflag, hs1, hr1⟩ := h
        obtain ⟨hflag1, hnex⟩ := Bool.or_eq_false_iff.mp hflag
        obtain ⟨hne, hbit', hprev'⟩ := get_next_step_avoids hbit hprev hnex hg
        rw [← hcs]
        intro hmem
        rcases List.mem_cons.mp hmem with hh | ht
        · exact hne hh.symm
        · rw [hflag1, hs1, hr1] at hr
          exact ih s0 r0 hbit' hprev' cs1 s2 rng2 hr ht

/-- C5: on the final permitted biased attempt the chosen channel is recorded
as the pool's `previous` and its mask bit is cleared, and that channel is not
returned by any subsequent reset-free sequence of non-biased (pool) picks. -/
theorem claim_C5_bias_boundary (jc : JoinChannels) (sb : Subband)
    (rng : RngState) (fuel n : Nat) (hp : jc.preferred_subband = some sb)
    (hlt : jc.num_retries < jc.max_retries)
    (hfin : jc.num_retries + 1 = jc.max_retries) :
    ∃ c jc1 rng1, get_next_channel fuel jc rng = some (c, jc1, rng1) ∧
      jc1.available_channels.previous = some c ∧
      is_enabled jc1.available_channels.data c = false ∧
      ∀ cs s2 rng2,
        run_get_next fuel n jc1.available_channels rng1 =
          some (cs, false, s2, rng2) →
        c ∉ cs := by
  have hcmp : compare jc.num_retries jc.max_retries = Ordering.lt :=
    Nat.compare_eq_lt.mpr hlt
  refine ⟨(next_u32 rng).1 % 8 + (sb.val - 1) * 8,
    JoinChannels.mk jc.max_retries (jc.num_retries + 1) (some sb)
      (AvailableChannels.mk (set_channel jc.available_channels.data ((next_u32 rng).1 % 8 + (sb.val - 1) * 8) false) (some ((next_u32 rng).1 % 8 + (sb.val - 1) * 8))),
    (next_u32 rng).2, ?_, rfl, ?_, ?_⟩
  · simp only [get_next_channel, hp, hcmp, if_pos hfin]
  · show is_enabled (set_channel jc.available_channels.data
      ((next_u32 rng).1 % 8 + (sb.val - 1) * 8) false)
      ((next_u32 rng).1 % 8 + (sb.val - 1) * 8) = false
    rw [is_enabled_set_channel, if_pos rfl]
  · intro cs s2 rng2 hrun
    have hbit2 : is_enabled (set_channel jc.available_channels.data
        ((next_u32 rng).1 % 8 + (sb.val - 1) * 8) false)
        ((next_u32 rng).1 % 8 + (sb.val - 1) * 8) = false := by
      rw [is_enabled_set_channel, if_pos rfl]
    exact run_get_next_avoids fuel _ n
      (AvailableChannels.mk (set_channel jc.available_channels.data ((next_u32 rng).1 % 8 + (sb.val - 1) * 8) false) (some ((next_u32 rng).1 % 8 + (sb.val - 1) * 8)))
      _ hbit2 rfl cs s2 rng2 hrun

theorem claim_C5_witness :
    (JoinChannels.mk 1 0 (some Subband.sb2)
      AvailableChannels.default).preferred_subband = some Subband.sb2 ∧
    (JoinChannels.mk 1 0 (some Subband.sb2)
      AvailableChannels.default).num_retries <
      (JoinChannels.mk 1 0 (some Subband.sb2)
        AvailableChannels.default).max_retries ∧
    (JoinChannels.mk 1 0 (some Subband.sb2)
      AvailableChannels.default).num_retries + 1 =
      (JoinChannels.mk 1 0 (some Subband.sb2)
        AvailableChannels.default).max_retries ∧
    (∃ c jc1 rng1, get_next_channel 0 (JoinChannels.mk 1 0 (some Subband.sb2)
        AvailableChannels.default) zeroRng = some (c, jc1, rng1) ∧
      jc1.available_channels.previous = some c ∧
      is_enabled jc1.available_channels.data c = false ∧
      ∀ cs s2 rng2,
        run_get_next 0 3 jc1.available_channels rng1 =
          some (cs, false, s2, rng2) →
        c ∉ cs) :=
  ⟨by decide, by decide, by decide,
    claim_C5_bias_boundary (JoinChannels.mk 1 0 (some Subband.sb2)
      AvailableChannels.default) Subband.sb2 zeroRng 0 3 (by decide)
      (by decide) (by decide)⟩

/-- C7 counterexample state: set a one-attempt bias on a fresh dispatcher,
make the single biased pick, then clear the bias. -/
def c7_jc1 : JoinChannels :=
  ((get_next_channel 0 (set_join_bias JoinChannels.default Subband.sb1 1)
    zeroRng).map fun x => x.2.1).getD JoinChannels.default

/-- The dispatcher state reached by `set_join_bias`, one pick, `clear_join_bias`. -/
def c7_state : JoinChannels := clear_join_bias c7_jc1

/-- C7 counterexample: after one biased pick, `clear_join_bias` zeroes
`max_retries` but leaves `num_retries = 1`, so the claimed invariant
`num_retries ≤ max_retries` is not preserved by `clear_join_bias`. -/
theorem claim_C7_counterexample :
    c7_state.num_retries = 1 ∧ c7_state.max_retries = 0 ∧
    ¬ c7_state.num_retries ≤ c7_state.max_retries := by
  refine ⟨by decide, by decide, by decide⟩

/-- C7 (amended): the invariant `num_retries ≤ max_retries` holds initially,
is preserved by `get_next_channel` and re-established by `reset`;
`clear_join_bias` sets the configuration to no subband and zero budget but
leaves `num_retries` unchanged, so it (like `set_join_bias`) can break the
inequality once attempts have been made. -/
theorem claim_C7_amended (jc : JoinChannels) (rng : RngState) (fuel : Nat)
    (h : jc.num_retries ≤ jc.max_retries) :
    JoinChannels.default.num_retries ≤ JoinChannels.default.max_retries ∧
    (JoinChannels.reset jc).num_retries ≤ (JoinChannels.reset jc).max_retries ∧
    (∀ c jc' rng', get_next_channel fuel jc rng = some (c, jc', rng') →
      jc'.num_retries ≤ jc'.max_retries) ∧
    (clear_join_bias jc).preferred_subband = none ∧
    (clear_join_bias jc).max_retries = 0 ∧
    (clear_join_bias jc).num_retries = jc.num_retries := by
  refine ⟨Nat.le_refl 0, Nat.zero_le _, ?_, rfl, rfl, rfl⟩
  intro c jc' rng' hcall
  rcases hp : jc.preferred_subband with _ | sb
  · simp only [get_next_channel, hp] at hcall
    rcases hg : get_next fuel jc.available_channels rng with _ | ⟨c0, s0, r0⟩
    · rw [hg] at hcall
      cases hcall
    · rw [hg] at hcall
      simp only [Option.some.injEq, Prod.mk.injEq] at hcall
      obtain ⟨_, hjc', _⟩ := hcall
      rw [← hjc']
      exact h
  · cases hcmp : compare jc.num_retries jc.max_retries
    all_goals simp only [get_next_channel, hp, hcmp] at hcall
    case lt =>
      have hlt := Nat.compare_eq_lt.mp hcmp
      simp only [Option.some.injEq, Prod.mk.injEq] at hcall
      obtain ⟨_, hjc', _⟩ := hcall
      rw [← hjc']
      show jc.num_retries + 1 ≤ jc.max_retries
      omega
    all_goals
      rcases hg : get_next fuel jc.available_channels rng with _ | ⟨c0, s0, r0⟩
    · rw [hg] at hcall
      cases hcall
    · rw [hg] at hcall
      simp only [Option.some.injEq, Prod.mk.injEq] at hcall
      obtain ⟨_, hjc', _⟩ := hcall
      rw [← hjc']
      exact h
    · rw [hg] at hcall
      cases hcall
    · rw [hg] at hcall
      simp only [Option.some.injEq, Prod.mk.injEq] at hcall
      obtain ⟨_, hjc', _⟩ := hcall
      rw [← hjc']
      exact h

theorem claim_C7_witness :
    JoinChannels.default.num_retries ≤ JoinChannels.default.max_retries ∧
    ((JoinChannels.reset JoinChannels.default).num_retries ≤
      (JoinChannels.reset JoinChannels.default).max_retries ∧
    (∀ c jc' rng',
      get_next_channel 0 JoinChannels.default zeroRng = some (c, jc', rng') →
      jc'.num_retries ≤ jc'.max_retries) ∧
    (clear_join_bias JoinChannels.default).preferred_subband = none ∧
    (clear_join_bias JoinChannels.default).max_retries = 0 ∧
    (clear_join_bias JoinChannels.default).num_retries =
      JoinChannels.default.num_retries) :=
  ⟨by decide,
    ((claim_C7_amended JoinChannels.default zeroRng 0 (by decide)).2 :)⟩

/-- C9: the raw-subband configuration path accepts exactly the subband values
1–8; an out-of-range value yields the invalid-configuration result `none` at
configuration time (spec-modelled: the `Subband` type and its validated
construction live outside `src/`). -/
theorem claim_C9_validation (jc : JoinChannels) (n m : Nat) :
    (set_join_bias_checked jc n m).isSome = true ↔ 1 ≤ n ∧ n ≤ 8 := by
  rcases n with _ | _ | _ | _ | _ | _ | _ | _ | _ | n <;>
    simp [set_join_bias_checked, Subband.fromNat]

/-- Nine unbiased picks from a fresh pool driven by the all-zeros entropy
stream: they select channels 0, 8, 16, …, 64 (lane 0 of every bank). -/
def c3_run : Option (List Nat × Bool × AvailableChannels × RngState) :=
  run_get_next 0 9 AvailableChannels.default zeroRng

/-- The pool state reached by `c3_run` (previous = 64, lane 0 cleared). -/
def c3_state : AvailableChannels :=
  (c3_run.map fun x => x.2.2.1).getD AvailableChannels.default

/-- The entropy-stream state reached by `c3_run`. -/
def c3_rng : RngState :=
  (c3_run.map fun x => x.2.2.2).getD zeroRng

/-- With channel `bank * 8 + 0` already used, a fallback search over that bank
fed by an all-zeros entropy stream and a zero entropy cache re-tests offset 0
forever: it fails for every amount of fuel. -/
theorem fallbackGo_zero_none (m : ChannelMask) (h0 : is_enabled m 0 = false) :
    ∀ fuel u rng, (∀ i, rng.seq i = 0) →
      fallbackGo m 0 fuel (0, u, rng) = none := by
  intro fuel
  induction fuel with
  | zero =>
    intro u rng _
    rfl
  | succ k ih =>
    intro u rng hseq
    rw [fallbackGo, if_neg (by
      rw [show ((0 : Nat) &&& 7) + 0 * 8 = 0 from rfl, h0]
      exact Bool.false_ne_true)]
    simp only [fbStep]
    by_cases hu : u = 10
    · rw [if_pos hu]
      have h1 : (next_u32 rng).1 / 8 = 0 := by
        simp only [next_u32]
        rw [hseq rng.pos]
        decide
      rw [h1]
      refine ih 1 (next_u32 rng).2 ?_
      intro i
      simp only [next_u32]
      exact hseq i
    · rw [if_neg hu]
      exact ih (u + 1) rng hseq

/-- Every selection call on the reachable state `c3_state` driven by the
remaining all-zeros stream runs the fallback search forever: no amount of
fuel makes it return. -/
theorem get_next_c3_none (fuel : Nat) : get_next fuel c3_state c3_rng = none := by
  have hnex : is_exhausted c3_state.data = false := by decide
  have hpe : postExhaust c3_state = c3_state := by
    simp [postExhaust, hnex]
  have hprev : c3_state.previous = some 64 := by decide
  have hnen : ¬ is_enabled c3_state.data ((64 + 8) % 72) = true := by decide
  have hfb : fallbackGo c3_state.data ((64 + 8) % 72 / 8) fuel
      ((next_u32 c3_rng).1, 1, (next_u32 c3_rng).2) = none := by
    have h1 : (next_u32 c3_rng).1 = 0 := by decide
    have hbank : (64 + 8) % 72 / 8 = 0 := by decide
    rw [h1, hbank]
    exact fallbackGo_zero_none c3_state.data (by decide) fuel 1
      (next_u32 c3_rng).2 (fun i => rfl)
  have hi : get_next_channel_inner fuel c3_state c3_rng =
      fallbackGo c3_state.data ((64 + 8) % 72 / 8) fuel
        ((next_u32 c3_rng).1, 1, (next_u32 c3_rng).2) := by
    simp only [get_next_channel_inner, hprev]
    rw [if_neg hnen]
  simp only [get_next, hpe, hi, hfb]

/-- C3 counterexample: the state after nine unbiased picks on the all-zeros
entropy stream is reachable (`c3_run` returns it), its wrap-around bank still
has available channels (e.g. channel 1), yet the next selection call never
terminates on that (adversarial but legitimate) entropy stream — the
universally quantified termination claim is false. -/
theorem claim_C3_counterexample :
    c3_run.isSome = true ∧
    c3_state.previous = some 64 ∧
    is_enabled c3_state.data 1 = true ∧
    ¬ poolTerminates c3_state c3_rng := by
  refine ⟨by decide, by decide, by decide, ?_⟩
  rintro ⟨fuel, c, s', r', h⟩
  rw [get_next_c3_none fuel] at h
  cases h

/-- C3 (amended): the fallback search terminates and returns an available
channel of the wrap-around bank for every entropy state whose extraction
sequence eventually offers the offset of an available channel in that bank
(as a uniformly random stream does with probability 1); an adversarial stream
whose extractions never do (e.g. all zeros) makes the loop run forever. -/
theorem claim_C3_amended (m : ChannelMask) (bank e u : Nat) (r : RngState)
    (i : Nat)
    (hhit : is_enabled m (((fbStep^[i] (e, u, r)).1 &&& 7) + bank * 8) = true) :
    ∃ c r', fallbackGo m bank (i + 1) (e, u, r) = some (c, r') ∧
      is_enabled m c = true ∧ bank * 8 ≤ c ∧ c < bank * 8 + 8 := by
  induction i generalizing e u r with
  | zero =>
    simp only [Function.iterate_zero, id_eq] at hhit
    have h7 : e &&& 7 ≤ 7 := Nat.and_le_right
    refine ⟨(e &&& 7) + bank * 8, r, ?_, hhit, Nat.le_add_left _ _, by omega⟩
    rw [fallbackGo, if_pos hhit]
  | succ k ih =>
    by_cases hen : is_enabled m ((e &&& 7) + bank * 8) = true
    · have h7 : e &&& 7 ≤ 7 := Nat.and_le_right
      refine ⟨(e &&& 7) + bank * 8, r, ?_, hen, Nat.le_add_left _ _, by omega⟩
      rw [fallbackGo, if_pos hen]
    · rw [Function.iterate_succ_apply] at hhit
      rcases hst : fbStep (e, u, r) with ⟨e', u', r''⟩
      rw [hst] at hhit
      obtain ⟨c, r2, hrun, hc1, hc2, hc3⟩ := ih e' u' r'' hhit
      refine ⟨c, r2, ?_, hc1, hc2, hc3⟩
      rw [fallbackGo, if_neg hen, hst]
      exact hrun

theorem claim_C3_amended_witness :
    is_enabled ChannelMask.default
      (((fbStep^[0] (5, 1, zeroRng)).1 &&& 7) + 0 * 8) = true ∧
    ∃ c r', fallbackGo ChannelMask.default 0 (0 + 1) (5, 1, zeroRng) =
        some (c, r') ∧
      is_enabled ChannelMask.default c = true ∧ 0 * 8 ≤ c ∧ c < 0 * 8 + 8 :=
  ⟨by decide, claim_C3_amended ChannelMask.default 0 5 1 zeroRng 0 (by decide)⟩

end JoinChannelsModel
